import Mathlib

/-!
Verification of the vCPU-scheduling tracer pipeline.

The development shallow-embeds the tracer script
(shared/scripts/py/trace_vcpu_sched.py) and the downstream analysis script
(shared/data/vcpu_sched/threads.py):

 * Python dictionaries become insertion-ordered association lists with the
   overwrite-in-place assignment semantics of dict update (`dictInsert`,
   `dictLookup`).
 * `make_key` is the 64-bit key packing of the probe text.  The probe
   handler itself is transcribed token for token as `probeBodyTokens`,
   because its text is ill-formed C (a bare loop keyword before the closing
   brace of the if block), which `cForTokensWellFormed` makes precise: the
   probe cannot compile, so no handler behavior is embedded as executable.
 * The user-space pipeline becomes pure functions `buildThreadMap`,
   `initResult`, `drain` (with an `Except` value standing for the KeyError
   raised on an unregistered thread id) and `serializeResult`.
 * The externally visible control actions of `main` become the list
   `mainTrace`, in program order, for the temporal claims.
-/

/-- Python dict lookup on an insertion-ordered association list: the value
bound to the first (hence, with unique keys, the only) matching key, or
`none`, which models a raised KeyError. -/
def dictLookup {κ α : Type} [DecidableEq κ] (k : κ) : List (κ × α) → Option α
  | [] => none
  | (q, v) :: rest => if k = q then some v else dictLookup k rest

/-- Python dict assignment: overwrite the existing binding in place, or append
a fresh binding at the end. -/
def dictInsert {κ α : Type} [DecidableEq κ] (k : κ) (v : α) :
    List (κ × α) → List (κ × α)
  | [] => [(k, v)]
  | (q, w) :: rest =>
    if k = q then (k, v) :: rest else (q, w) :: dictInsert k v rest

/-- Key packing of the probe text: the thread id shifted into the high 32 bits
or-ed with the cpu id in the low 32 bits.  Both arguments are 32-bit values in
the source, so the 64-bit result cannot overflow. -/
def make_key (pid cpu : Nat) : Nat :=
  (pid <<< 32) ||| cpu

theorem make_key_eq_mul_add (pid cpu : Nat) (hcpu : cpu < 2 ^ 32) :
    make_key pid cpu = pid * 2 ^ 32 + cpu := by
  unfold make_key
  rw [Nat.shiftLeft_eq, Nat.mul_comm pid (2 ^ 32), ← Nat.mul_add_lt_is_or hcpu]

theorem make_key_shiftRight (pid cpu : Nat) (hcpu : cpu < 2 ^ 32) :
    make_key pid cpu >>> 32 = pid := by
  rw [make_key_eq_mul_add pid cpu hcpu, Nat.shiftRight_eq_div_pow]
  have h32 : (2 : Nat) ^ 32 = 4294967296 := by norm_num
  rw [h32] at hcpu ⊢
  omega

theorem make_key_mask (pid cpu : Nat) (hcpu : cpu < 2 ^ 32) :
    make_key pid cpu &&& 0xFFFFFFFF = cpu := by
  rw [make_key_eq_mul_add pid cpu hcpu]
  have hmask : (0xFFFFFFFF : Nat) = 2 ^ 32 - 1 := by norm_num
  rw [hmask, Nat.and_pow_two_sub_one_eq_mod]
  have h32 : (2 : Nat) ^ 32 = 4294967296 := by norm_num
  rw [h32] at hcpu ⊢
  omega

/-- Unpacking determines the packed key: two keys that agree on the high-32
shift and on the low-32 mask are equal. -/
theorem unpack_inj {a b : Nat} (h1 : a >>> 32 = b >>> 32)
    (h2 : a &&& 0xFFFFFFFF = b &&& 0xFFFFFFFF) : a = b := by
  have hmask : (0xFFFFFFFF : Nat) = 2 ^ 32 - 1 := by norm_num
  rw [hmask, Nat.and_pow_two_sub_one_eq_mod, Nat.and_pow_two_sub_one_eq_mod] at h2
  rw [Nat.shiftRight_eq_div_pow, Nat.shiftRight_eq_div_pow] at h1
  have h32 : (2 : Nat) ^ 32 = 4294967296 := by norm_num
  rw [h32] at h1 h2
  omega

/-- C2: packing a 32-bit thread id and a 32-bit cpu id into one 64-bit key
(thread id in the high 32 bits, cpu id in the low 32 bits) and unpacking by a
32-bit right shift and a low-32-bit mask reproduces the original pair. -/
theorem c2_key_round_trip (pid cpu : Nat) (_hpid : pid < 2 ^ 32)
    (hcpu : cpu < 2 ^ 32) :
    make_key pid cpu >>> 32 = pid ∧ make_key pid cpu &&& 0xFFFFFFFF = cpu :=
  ⟨make_key_shiftRight pid cpu hcpu, make_key_mask pid cpu hcpu⟩

theorem c2_key_round_trip_witness :
    make_key 1001 7 >>> 32 = 1001 ∧ make_key 1001 7 &&& 0xFFFFFFFF = 7 :=
  c2_key_round_trip 1001 7 (by norm_num) (by norm_num)

theorem dictLookup_insert_self {κ α : Type} [DecidableEq κ] (k : κ) (v : α)
    (m : List (κ × α)) : dictLookup k (dictInsert k v m) = some v := by
  induction m with
  | nil => simp [dictInsert, dictLookup]
  | cons p rest ih =>
    obtain ⟨q, w⟩ := p
    by_cases h : k = q <;> simp [dictInsert, dictLookup, h, ih]

theorem dictLookup_insert_ne {κ α : Type} [DecidableEq κ] {k q : κ}
    (hne : k ≠ q) (v : α) (m : List (κ × α)) :
    dictLookup k (dictInsert q v m) = dictLookup k m := by
  induction m with
  | nil => simp [dictInsert, dictLookup, hne]
  | cons p rest ih =>
    obtain ⟨p1, p2⟩ := p
    by_cases h : q = p1
    · subst h
      simp [dictInsert, dictLookup, hne]
    · by_cases h2 : k = p1 <;> simp [dictInsert, dictLookup, h, h2, ih]

theorem mem_dictInsert_keys {κ α : Type} [DecidableEq κ] (x k : κ) (v : α)
    (m : List (κ × α)) :
    x ∈ (dictInsert k v m).map Prod.fst ↔ x = k ∨ x ∈ m.map Prod.fst := by
  induction m with
  | nil => simp [dictInsert]
  | cons p rest ih =>
    obtain ⟨q, w⟩ := p
    by_cases h : k = q
    · subst h
      simp [dictInsert]
    · simp only [dictInsert, if_neg h, List.map_cons, List.mem_cons, ih]
      tauto

theorem dictInsert_keys_eq_of_mem {κ α : Type} [DecidableEq κ] (k : κ) (v : α)
    (m : List (κ × α)) (hmem : k ∈ m.map Prod.fst) :
    (dictInsert k v m).map Prod.fst = m.map Prod.fst := by
  induction m with
  | nil => simp at hmem
  | cons p rest ih =>
    obtain ⟨q, w⟩ := p
    by_cases h : k = q
    · simp [dictInsert, h]
    · simp only [List.map_cons, List.mem_cons] at hmem
      rcases hmem with h1 | h1
      · exact absurd h1 h
      · simp [dictInsert, h, ih h1]

theorem dictInsert_keys_eq_of_not_mem {κ α : Type} [DecidableEq κ] (k : κ)
    (v : α) (m : List (κ × α)) (hmem : k ∉ m.map Prod.fst) :
    (dictInsert k v m).map Prod.fst = m.map Prod.fst ++ [k] := by
  induction m with
  | nil => simp [dictInsert]
  | cons p rest ih =>
    obtain ⟨q, w⟩ := p
    simp only [List.map_cons, List.mem_cons] at hmem
    push_neg at hmem
    simp [dictInsert, hmem.1, ih hmem.2]

theorem dictInsert_keys_nodup {κ α : Type} [DecidableEq κ] (k : κ) (v : α)
    (m : List (κ × α)) (h : (m.map Prod.fst).Nodup) :
    ((dictInsert k v m).map Prod.fst).Nodup := by
  by_cases hmem : k ∈ m.map Prod.fst
  · rw [dictInsert_keys_eq_of_mem k v m hmem]
    exact h
  · rw [dictInsert_keys_eq_of_not_mem k v m hmem]
    simp [List.nodup_append, h, hmem]

theorem dictLookup_isSome_iff_mem {κ α : Type} [DecidableEq κ] (k : κ)
    (m : List (κ × α)) :
    (∃ v, dictLookup k m = some v) ↔ k ∈ m.map Prod.fst := by
  induction m with
  | nil => simp [dictLookup]
  | cons p rest ih =>
    obtain ⟨q, w⟩ := p
    by_cases h : k = q <;> simp [dictLookup, h, ih]

/-- The token stream of the TRACEPOINT_PROBE handler of the probe text,
transcribed token for token from the tracer source, including the stray loop
keyword standing alone before the closing brace of the if block. -/
def probeBodyTokens : List String :=
  ["TRACEPOINT_PROBE", "(", "sched", ",", "sched_switch", ")", "\x7b",
   "u32", "next_pid", "=", "args", "->", "next_pid", ";",
   "if", "(", "target_pids", ".", "lookup", "(", "&", "next_pid", ")", ")",
   "\x7b",
   "u32", "cpu", "=", "bpf_get_smp_processor_id", "(", ")", ";",
   "u64", "key", "=", "make_key", "(", "next_pid", ",", "cpu", ")", ";",
   "u64", "zero", "=", "0", ",", "*", "val", ";",
   "val", "=", "sched_count", ".", "lookup_or_init",
   "(", "&", "key", ",", "&", "zero", ")", ";",
   "__sync_fetch_and_add", "(", "val", ",", "1", ")", ";",
   "for",
   "\x7d",
   "return", "0", ";",
   "\x7d"]

/-- The C grammar condition the stray token violates: every loop keyword must
be followed immediately by an opening parenthesis; a token stream failing this
check is a syntax error and cannot compile. -/
def cForTokensWellFormed : List String → Bool
  | [] => true
  | [t] => t != "for"
  | t :: t2 :: rest =>
    (t != "for" || t2 == "(") && cForTokensWellFormed (t2 :: rest)

/-- C3: the probe text of the source is ill-formed C: its handler carries a
bare loop keyword with no parenthesized clause, so the probe cannot compile,
the handler never attaches, and the in-kernel filtering and counting the
claim describes never execute on any run; dropping that single stray token
restores the well-formedness condition, so the slip is the sole
obstruction. -/
theorem c3_probe_text_ill_formed :
    cForTokensWellFormed probeBodyTokens = false ∧
    cForTokensWellFormed (probeBodyTokens.filter (fun t => t != "for")) =
      true := by
  decide

/-- One per-thread record of the result artifact: the vcpu core index reported
by the control protocol and the per-cpu scheduling counts. -/
structure ThreadReport where
  vcpu : Nat
  scheds : List (Nat × Nat)
  deriving DecidableEq, Repr

/-- The thread map built from the reply to the vCPU query: for each entry, the
props core index is assigned to the host thread id key, a later entry for the
same thread id overwriting an earlier one. -/
def buildThreadMap (info : List (Nat × Nat)) : List (Nat × Nat) :=
  info.foldl (fun m tc => dictInsert tc.1 tc.2 m) []

/-- The freshly initialized result artifact: one entry per thread-map entry,
carrying the vcpu core index and an empty scheds map. -/
def initResult (thread_map : List (Nat × Nat)) : List (Nat × ThreadReport) :=
  thread_map.map (fun pc => (pc.1, ⟨pc.2, []⟩))

/-- One assignment of the drain loop, writing a count into the scheds map of
the report owned by the unpacked thread id; `none` models the KeyError raised
when that thread id is not a key of the result artifact. -/
def updateScheds (pid cpu count : Nat) :
    List (Nat × ThreadReport) → Option (List (Nat × ThreadReport))
  | [] => none
  | (p, r) :: rest =>
    if pid = p then
      some ((p, ⟨r.vcpu, dictInsert cpu count r.scheds⟩) :: rest)
    else
      (updateScheds pid cpu count rest).map (fun rest2 => (p, r) :: rest2)

/-- The drain loop: each drained 64-bit key is unpacked by a 32-bit right
shift (thread id) and a low-32-bit mask (cpu id) and its count is written into
the owning report; a key owned by no registered thread id fails the whole
drain, carrying the offending thread id. -/
def drain : List (Nat × Nat) → List (Nat × ThreadReport) →
    Except Nat (List (Nat × ThreadReport))
  | [], result => .ok result
  | (key, count) :: rest, result =>
    match updateScheds (key >>> 32) (key &&& 0xFFFFFFFF) count result with
    | some result2 => drain rest result2
    | none => .error (key >>> 32)

/-- A per-thread record after JSON serialization: object keys have become
strings. -/
structure SerializedReport where
  vcpu : Nat
  scheds : List (String × Nat)
  deriving DecidableEq, Repr

/-- JSON serialization of the result artifact: the thread-id keys and the
cpu-id keys are rendered as decimal strings. -/
def serializeResult (result : List (Nat × ThreadReport)) :
    List (String × SerializedReport) :=
  result.map (fun pr =>
    (toString pr.1, ⟨pr.2.vcpu, pr.2.scheds.map (fun cc => (toString cc.1, cc.2))⟩))

theorem updateScheds_keys {pid cpu count : Nat}
    {art art2 : List (Nat × ThreadReport)}
    (h : updateScheds pid cpu count art = some art2) :
    art2.map Prod.fst = art.map Prod.fst := by
  induction art generalizing art2 with
  | nil => simp [updateScheds] at h
  | cons p rest ih =>
    obtain ⟨q, r⟩ := p
    by_cases hq : pid = q
    · simp only [updateScheds, if_pos hq] at h
      obtain rfl := Option.some.inj h
      simp
    · simp only [updateScheds, if_neg hq] at h
      cases hrest : updateScheds pid cpu count rest with
      | none => rw [hrest] at h; simp at h
      | some rest2 =>
        rw [hrest] at h
        simp only [Option.map_some'] at h
        obtain rfl := Option.some.inj h
        simp [ih hrest]

theorem updateScheds_isSome_of_mem {pid cpu count : Nat}
    {art : List (Nat × ThreadReport)} (hmem : pid ∈ art.map Prod.fst) :
    ∃ art2, updateScheds pid cpu count art = some art2 := by
  induction art with
  | nil => simp at hmem
  | cons p rest ih =>
    obtain ⟨q, r⟩ := p
    by_cases hq : pid = q
    · exact ⟨(q, ⟨r.vcpu, dictInsert cpu count r.scheds⟩) :: rest,
        by simp [updateScheds, if_pos hq]⟩
    · simp only [List.map_cons, List.mem_cons] at hmem
      rcases hmem with h1 | h1
      · exact absurd h1 hq
      · obtain ⟨art2, hart2⟩ := ih h1
        exact ⟨(q, r) :: art2, by simp [updateScheds, if_neg hq, hart2]⟩

theorem updateScheds_mem_of_isSome {pid cpu count : Nat}
    {art art2 : List (Nat × ThreadReport)}
    (h : updateScheds pid cpu count art = some art2) :
    pid ∈ art.map Prod.fst := by
  induction art generalizing art2 with
  | nil => simp [updateScheds] at h
  | cons p rest ih =>
    obtain ⟨q, r⟩ := p
    by_cases hq : pid = q
    · simp [hq]
    · simp only [updateScheds, if_neg hq] at h
      cases hrest : updateScheds pid cpu count rest with
      | none => rw [hrest] at h; simp at h
      | some rest2 => simpa using Or.inr (ih hrest)

theorem updateScheds_lookup_ne {pid q cpu count : Nat} (hne : q ≠ pid)
    {art art2 : List (Nat × ThreadReport)}
    (h : updateScheds pid cpu count art = some art2) :
    dictLookup q art2 = dictLookup q art := by
  induction art generalizing art2 with
  | nil => simp [updateScheds] at h
  | cons p rest ih =>
    obtain ⟨p1, r⟩ := p
    by_cases hp : pid = p1
    · simp only [updateScheds, if_pos hp] at h
      obtain rfl := Option.some.inj h
      subst hp
      simp [dictLookup, hne]
    · simp only [updateScheds, if_neg hp] at h
      cases hrest : updateScheds pid cpu count rest with
      | none => rw [hrest] at h; simp at h
      | some rest2 =>
        rw [hrest] at h
        simp only [Option.map_some'] at h
        obtain rfl := Option.some.inj h
        by_cases hq : q = p1 <;> simp [dictLookup, hq, ih hrest]

theorem updateScheds_lookup_self {pid cpu count : Nat}
    {art art2 : List (Nat × ThreadReport)}
    (h : updateScheds pid cpu count art = some art2) :
    ∃ r, dictLookup pid art = some r ∧
      dictLookup pid art2 = some ⟨r.vcpu, dictInsert cpu count r.scheds⟩ := by
  induction art generalizing art2 with
  | nil => simp [updateScheds] at h
  | cons p rest ih =>
    obtain ⟨p1, r⟩ := p
    by_cases hp : pid = p1
    · simp only [updateScheds, if_pos hp] at h
      obtain rfl := Option.some.inj h
      exact ⟨r, by simp [dictLookup, hp]⟩
    · simp only [updateScheds, if_neg hp] at h
      cases hrest : updateScheds pid cpu count rest with
      | none => rw [hrest] at h; simp at h
      | some rest2 =>
        rw [hrest] at h
        simp only [Option.map_some'] at h
        obtain rfl := Option.some.inj h
        obtain ⟨r0, hr0, hr0b⟩ := ih hrest
        exact ⟨r0, by simp [dictLookup, hp, hr0, hr0b]⟩

theorem initResult_keys (thread_map : List (Nat × Nat)) :
    (initResult thread_map).map Prod.fst = thread_map.map Prod.fst := by
  simp [initResult, List.map_map]

theorem initResult_lookup (thread_map : List (Nat × Nat)) (pid : Nat) :
    dictLookup pid (initResult thread_map) =
      (dictLookup pid thread_map).map (fun c => (⟨c, []⟩ : ThreadReport)) := by
  induction thread_map with
  | nil => simp [initResult, dictLookup]
  | cons p rest ih =>
    obtain ⟨q, c⟩ := p
    by_cases h : pid = q
    · simp [initResult, dictLookup, h]
    · simp only [initResult, List.map_cons, dictLookup, if_neg h]
      simpa [initResult] using ih

theorem drain_keys {counts : List (Nat × Nat)}
    {art art2 : List (Nat × ThreadReport)} (h : drain counts art = .ok art2) :
    art2.map Prod.fst = art.map Prod.fst := by
  induction counts generalizing art with
  | nil =>
    simp only [drain] at h
    obtain rfl := Except.ok.inj h
    rfl
  | cons kc rest ih =>
    obtain ⟨key, count⟩ := kc
    simp only [drain] at h
    cases hup : updateScheds (key >>> 32) (key &&& 0xFFFFFFFF) count art with
    | none => rw [hup] at h; simp at h
    | some art1 =>
      rw [hup] at h
      simp only at h
      exact (ih h).trans (updateScheds_keys hup)

theorem drain_ok_mem {counts : List (Nat × Nat)}
    {art art2 : List (Nat × ThreadReport)} (h : drain counts art = .ok art2) :
    ∀ kc ∈ counts, kc.1 >>> 32 ∈ art.map Prod.fst := by
  induction counts generalizing art with
  | nil => simp
  | cons kc rest ih =>
    obtain ⟨key, count⟩ := kc
    simp only [drain] at h
    cases hup : updateScheds (key >>> 32) (key &&& 0xFFFFFFFF) count art with
    | none => rw [hup] at h; simp at h
    | some art1 =>
      rw [hup] at h
      simp only at h
      intro kc hkc
      rcases List.mem_cons.mp hkc with h1 | h1
      · subst h1
        exact updateScheds_mem_of_isSome hup
      · have := ih h kc h1
        rwa [updateScheds_keys hup] at this

theorem drain_lookup_untouched {counts : List (Nat × Nat)}
    {art art2 : List (Nat × ThreadReport)} (h : drain counts art = .ok art2)
    (pid : Nat) (hnone : ∀ kc ∈ counts, kc.1 >>> 32 ≠ pid) :
    dictLookup pid art2 = dictLookup pid art := by
  induction counts generalizing art with
  | nil =>
    simp only [drain] at h
    obtain rfl := Except.ok.inj h
    rfl
  | cons kc rest ih =>
    obtain ⟨key, count⟩ := kc
    simp only [drain] at h
    cases hup : updateScheds (key >>> 32) (key &&& 0xFFFFFFFF) count art with
    | none => rw [hup] at h; simp at h
    | some art1 =>
      rw [hup] at h
      simp only at h
      have hne : pid ≠ key >>> 32 :=
        fun he => hnone (key, count) (List.mem_cons_self _ _) he.symm
      rw [ih h (fun kc hkc => hnone kc (List.mem_cons_of_mem _ hkc))]
      exact updateScheds_lookup_ne hne hup

/-- A recorded (thread, cpu, count) triple survives the remaining drain steps
as long as none of them writes to the very same (thread, cpu) cell. -/
theorem drain_preserves_cell {counts : List (Nat × Nat)}
    {art art2 : List (Nat × ThreadReport)} (h : drain counts art = .ok art2)
    (pid cpu c : Nat)
    (hne : ∀ kc ∈ counts, kc.1 >>> 32 ≠ pid ∨ kc.1 &&& 0xFFFFFFFF ≠ cpu)
    (r : ThreadReport) (hr : dictLookup pid art = some r)
    (hc : dictLookup cpu r.scheds = some c) :
    ∃ r2, dictLookup pid art2 = some r2 ∧ dictLookup cpu r2.scheds = some c := by
  induction counts generalizing art r with
  | nil =>
    simp only [drain] at h
    obtain rfl := Except.ok.inj h
    exact ⟨r, hr, hc⟩
  | cons kc rest ih =>
    obtain ⟨key, count⟩ := kc
    simp only [drain] at h
    cases hup : updateScheds (key >>> 32) (key &&& 0xFFFFFFFF) count art with
    | none => rw [hup] at h; simp at h
    | some art1 =>
      rw [hup] at h
      simp only at h
      have hrest : ∀ kc ∈ rest, kc.1 >>> 32 ≠ pid ∨ kc.1 &&& 0xFFFFFFFF ≠ cpu :=
        fun kc hkc => hne kc (List.mem_cons_of_mem _ hkc)
      by_cases hp : key >>> 32 = pid
      · rcases hne (key, count) (List.mem_cons_self _ _) with h1 | h1
        · exact absurd hp h1
        · obtain ⟨r0, hr0, hr0b⟩ := updateScheds_lookup_self hup
          rw [hp] at hr0 hr0b
          rw [hr] at hr0
          obtain rfl := Option.some.inj hr0
          refine ih h hrest ⟨r.vcpu, dictInsert (key &&& 0xFFFFFFFF) count r.scheds⟩ hr0b ?_
          simpa using (dictLookup_insert_ne (fun he => h1 he.symm) count r.scheds).trans hc
      · have hlook : dictLookup pid art1 = dictLookup pid art :=
          updateScheds_lookup_ne (fun he => hp he.symm) hup
        exact ih h hrest r (hlook.trans hr) hc

/-- Membership in the keys of the built thread map coincides with membership
in the thread ids of the query reply. -/
theorem buildThreadMap_mem_keys_aux (info : List (Nat × Nat))
    (m : List (Nat × Nat)) (tid : Nat) :
    tid ∈ (info.foldl (fun acc tc => dictInsert tc.1 tc.2 acc) m).map Prod.fst ↔
      tid ∈ info.map Prod.fst ∨ tid ∈ m.map Prod.fst := by
  induction info generalizing m with
  | nil => simp
  | cons tc rest ih =>
    simp only [List.foldl_cons, List.map_cons, List.mem_cons, ih,
      mem_dictInsert_keys]
    tauto

theorem buildThreadMap_mem_keys (info : List (Nat × Nat)) (tid : Nat) :
    tid ∈ (buildThreadMap info).map Prod.fst ↔ tid ∈ info.map Prod.fst := by
  unfold buildThreadMap
  rw [buildThreadMap_mem_keys_aux]
  simp

theorem buildThreadMap_keys_nodup (info : List (Nat × Nat)) :
    ((buildThreadMap info).map Prod.fst).Nodup := by
  unfold buildThreadMap
  have haux : ∀ (l : List (Nat × Nat)) (m : List (Nat × Nat)),
      (m.map Prod.fst).Nodup →
      ((l.foldl (fun acc tc => dictInsert tc.1 tc.2 acc) m).map Prod.fst).Nodup := by
    intro l
    induction l with
    | nil => exact fun m hm => hm
    | cons tc rest ih =>
      intro m hm
      exact ih _ (dictInsert_keys_nodup tc.1 tc.2 m hm)
  exact haux info [] (by simp)

/-- C4: whenever the drain step succeeds, the result artifact has exactly the
thread-id keys of the resolved thread map (no extras, no omissions, each
exactly once), every resolved thread id owns an entry, a thread none of whose
packed keys were drained still owns its entry with an empty scheds map, and
serialization keeps exactly those keys, stringified, one entry apiece. -/
theorem c4_artifact_complete (info counts : List (Nat × Nat))
    (art2 : List (Nat × ThreadReport))
    (h : drain counts (initResult (buildThreadMap info)) = .ok art2) :
    art2.map Prod.fst = (buildThreadMap info).map Prod.fst ∧
    (art2.map Prod.fst).Nodup ∧
    (∀ tid ∈ info.map Prod.fst, ∃ r, dictLookup tid art2 = some r) ∧
    (∀ pid, (∀ kc ∈ counts, kc.1 >>> 32 ≠ pid) →
      ∀ r, dictLookup pid art2 = some r → r.scheds = []) ∧
    (serializeResult art2).map Prod.fst =
      ((buildThreadMap info).map Prod.fst).map toString := by
  have hkeys : art2.map Prod.fst = (buildThreadMap info).map Prod.fst :=
    (drain_keys h).trans (initResult_keys _)
  refine ⟨hkeys, ?_, ?_, ?_, ?_⟩
  · rw [hkeys]
    exact buildThreadMap_keys_nodup info
  · intro tid htid
    rw [dictLookup_isSome_iff_mem, hkeys, buildThreadMap_mem_keys]
    exact htid
  · intro pid hnone r hr
    rw [drain_lookup_untouched h pid hnone, initResult_lookup] at hr
    cases hlook : dictLookup pid (buildThreadMap info) with
    | none => rw [hlook] at hr; simp at hr
    | some c =>
      rw [hlook] at hr
      simp only [Option.map_some'] at hr
      obtain rfl := Option.some.inj hr
      rfl
  · rw [← hkeys, serializeResult, List.map_map, List.map_map]
    rfl

theorem c4_artifact_complete_witness :
    (initResult (buildThreadMap [(1001, 0)])).map Prod.fst =
      (buildThreadMap [(1001, 0)]).map Prod.fst ∧
    ∃ r, dictLookup 1001 (initResult (buildThreadMap [(1001, 0)])) = some r :=
  ⟨(c4_artifact_complete [(1001, 0)] [] _ rfl).1,
    (c4_artifact_complete [(1001, 0)] [] _ rfl).2.2.1 1001 (by decide)⟩

/-- C6: with distinct drained keys, a drained key whose unpacked thread id was
never registered makes the drain step fail with the unknown-thread error
rather than being dropped, and on a successful drain every drained pair is
recorded in the owning ThreadReport at its unpacked cpu key. -/
theorem c6_drain_unknown_or_records (counts : List (Nat × Nat))
    (art : List (Nat × ThreadReport)) (hnd : (counts.map Prod.fst).Nodup) :
    ((∃ kc ∈ counts, kc.1 >>> 32 ∉ art.map Prod.fst) →
      ∃ pid, drain counts art = .error pid) ∧
    (∀ art2, drain counts art = .ok art2 → ∀ kc ∈ counts,
      ∃ r, dictLookup (kc.1 >>> 32) art2 = some r ∧
        dictLookup (kc.1 &&& 0xFFFFFFFF) r.scheds = some kc.2) := by
  constructor
  · intro hbad
    cases hdr : drain counts art with
    | ok art2 =>
      obtain ⟨kc, hkc, hnotin⟩ := hbad
      exact absurd (drain_ok_mem hdr kc hkc) hnotin
    | error pid => exact ⟨pid, rfl⟩
  · intro art2 h
    induction counts generalizing art with
    | nil => simp
    | cons kc rest ih =>
      obtain ⟨key, count⟩ := kc
      simp only [drain] at h
      cases hup : updateScheds (key >>> 32) (key &&& 0xFFFFFFFF) count art with
      | none => rw [hup] at h; simp at h
      | some art1 =>
        rw [hup] at h
        simp only at h
        simp only [List.map_cons, List.nodup_cons] at hnd
        intro kc2 hkc2
        rcases List.mem_cons.mp hkc2 with h1 | h1
        · subst h1
          obtain ⟨r0, hr0, hr0b⟩ := updateScheds_lookup_self hup
          refine drain_preserves_cell h (key >>> 32) (key &&& 0xFFFFFFFF)
            count ?_ _ hr0b (dictLookup_insert_self _ _ _)
          intro kc3 hkc3
          by_contra hcon
          push_neg at hcon
          exact hnd.1 (unpack_inj hcon.1 hcon.2 ▸ List.mem_map_of_mem Prod.fst hkc3)
        · exact ih art1 hnd.2 h kc2 h1

theorem c6_drain_unknown_or_records_witness :
    (∃ pid, drain [(make_key 7 0, 1)]
        (initResult (buildThreadMap [(5, 0)])) = .error pid) ∧
    (∃ r, dictLookup (make_key 5 0 >>> 32)
        [(5, (⟨3, [(0, 9)]⟩ : ThreadReport))] = some r ∧
      dictLookup (make_key 5 0 &&& 0xFFFFFFFF) r.scheds = some 9) := by
  constructor
  · exact (c6_drain_unknown_or_records [(make_key 7 0, 1)]
      (initResult (buildThreadMap [(5, 0)])) (by decide)).1
      ⟨(make_key 7 0, 1), by decide, by decide⟩
  · exact (c6_drain_unknown_or_records [(make_key 5 0, 9)]
      (initResult (buildThreadMap [(5, 3)])) (by decide)).2
      [(5, ⟨3, [(0, 9)]⟩)] (by rfl) (make_key 5 0, 9) (by decide)

/-- C5: on the resolved target set mapping thread 1001 to vcpu 0 and thread
1002 to vcpu 1, and the four drained kernel counts of the scenario, the
pipeline of drain and serialization emits exactly the expected object keyed by
stringified thread ids with per-thread vcpu and stringified-cpu counts. -/
theorem c5_end_to_end_scenario :
    (drain [(make_key 1001 0, 5000), (make_key 1001 1, 5000),
        (make_key 1002 0, 3000), (make_key 1002 2, 7000)]
      (initResult (buildThreadMap [(1001, 0), (1002, 1)]))).map
        serializeResult =
      .ok [("1001", ⟨0, [("0", 5000), ("1", 5000)]⟩),
           ("1002", ⟨1, [("0", 3000), ("2", 7000)]⟩)] := by
  rfl

theorem buildThreadMap_lookup_aux (info : List (Nat × Nat))
    (m : List (Nat × Nat)) (tid : Nat) :
    dictLookup tid (info.foldl (fun acc tc => dictInsert tc.1 tc.2 acc) m) =
      match info.reverse.find? (fun tc => tc.1 == tid) with
      | some tc => some tc.2
      | none => dictLookup tid m := by
  induction info generalizing m with
  | nil => simp
  | cons tc rest ih =>
    obtain ⟨t, c⟩ := tc
    simp only [List.foldl_cons, List.reverse_cons, List.find?_append]
    rw [ih]
    cases hfind : rest.reverse.find? (fun tc => tc.1 == tid) with
    | some tc2 => simp
    | none =>
      simp only [Option.none_or]
      by_cases ht : t = tid
      · subst ht
        simp [dictLookup_insert_self]
      · have : ((t, c).1 == tid) = false := by simpa using ht
        simp only [List.find?_singleton, this, cond_false]
        exact dictLookup_insert_ne (fun he => ht he.symm) c m

/-- C9: when the vCPU query reply carries several entries with the same host
thread id, the thread map silently keeps a single binding whose core id comes
from the last such entry, the thread map has that key exactly once, and any
successfully drained artifact keeps exactly one entry for that thread id. -/
theorem c9_duplicate_threads_last_wins (info : List (Nat × Nat)) (tid : Nat)
    (hmem : tid ∈ info.map Prod.fst) :
    dictLookup tid (buildThreadMap info) =
      (info.reverse.find? (fun tc => tc.1 == tid)).map Prod.snd ∧
    ((buildThreadMap info).map Prod.fst).count tid = 1 ∧
    (∀ counts art2, drain counts (initResult (buildThreadMap info)) = .ok art2 →
      (art2.map Prod.fst).count tid = 1) := by
  have hcount : ((buildThreadMap info).map Prod.fst).count tid = 1 :=
    List.count_eq_one_of_mem (buildThreadMap_keys_nodup info)
      ((buildThreadMap_mem_keys info tid).mpr hmem)
  refine ⟨?_, hcount, ?_⟩
  · unfold buildThreadMap
    rw [buildThreadMap_lookup_aux]
    cases hfind : info.reverse.find? (fun tc => tc.1 == tid) with
    | some tc => simp
    | none =>
      exfalso
      obtain ⟨⟨t, c⟩, htc, hts⟩ := List.mem_map.mp hmem
      have : (t, c) ∈ info.reverse := List.mem_reverse.mpr htc
      have hnone := List.find?_eq_none.mp hfind (t, c) this
      simp at hnone
      exact hnone (by simpa using hts)
  · intro counts art2 hdr
    rw [(drain_keys hdr).trans (initResult_keys _)]
    exact hcount

theorem c9_duplicate_threads_last_wins_witness :
    dictLookup 7 (buildThreadMap [(7, 0), (7, 1)]) = some 1 ∧
    ((buildThreadMap [(7, 0), (7, 1)]).map Prod.fst).count 7 = 1 := by
  have h := c9_duplicate_threads_last_wins [(7, 0), (7, 1)] 7 (by decide)
  exact ⟨h.1.trans (by decide), h.2.1⟩

/-- The externally visible control actions of one run of the tracer. -/
inductive TraceAction where
  | waitSocket
  | connectSocket
  | cont
  | awaitMilestone
  | stop
  | queryCpus
  | attachProbe
  | setTarget (pid : Nat)
  | disconnectSocket
  | awaitExit
  | readCounts
  | writeFile
  deriving DecidableEq, BEq, Repr

/-- Actions of the run up to and including probe attachment: socket wait and
connect, first resume, milestone wait, pause, vCPU query, probe load. -/
def tracePrefix : List TraceAction :=
  [.waitSocket, .connectSocket, .cont, .awaitMilestone, .stop, .queryCpus,
   .attachProbe]

/-- Actions of the run after the target filter is populated: second resume,
disconnect, process-exit wait, drain, artifact write. -/
def traceSuffix : List TraceAction :=
  [.cont, .disconnectSocket, .awaitExit, .readCounts, .writeFile]

/-- The whole run of the tracer in program order, parameterized by the
resolved target thread ids written one at a time into the probe filter. -/
def mainTrace (pids : List Nat) : List TraceAction :=
  tracePrefix ++ pids.map TraceAction.setTarget ++ traceSuffix

theorem mainTrace_getElem_lt (pids : List Nat) (i : Nat) (h : i < 7) :
    (mainTrace pids)[i]? = tracePrefix[i]? := by
  unfold mainTrace
  rw [List.append_assoc, List.getElem?_append_left (by simp [tracePrefix]; omega)]

theorem mainTrace_getElem_mid (pids : List Nat) (i : Nat) (h7 : 7 ≤ i)
    (hlt : i < 7 + pids.length) :
    (mainTrace pids)[i]? = (pids[i - 7]?).map TraceAction.setTarget := by
  unfold mainTrace
  rw [List.append_assoc, List.getElem?_append_right (by simp [tracePrefix]; omega)]
  have hpre : tracePrefix.length = 7 := by rfl
  rw [hpre, List.getElem?_append_left (by simp; omega)]
  exact List.getElem?_map TraceAction.setTarget pids (i - 7)

theorem mainTrace_getElem_high (pids : List Nat) (i : Nat)
    (h : 7 + pids.length ≤ i) :
    (mainTrace pids)[i]? = traceSuffix[i - (7 + pids.length)]? := by
  unfold mainTrace
  rw [List.append_assoc, List.getElem?_append_right (by simp [tracePrefix]; omega)]
  have hpre : tracePrefix.length = 7 := by rfl
  rw [hpre, List.getElem?_append_right (by simp; omega)]
  congr 1
  simp
  omega

/-- C1 counterexample: in the concrete run with the single target thread 42,
the first resume of the trace — the one the state machine of the
specification issues to open the trace window — sits at position 2, while the
probe attachment first occurs at position 6 and the first write into the
probe filter at position 7: that resume is issued before the probe is
attached and before any target is written. -/
theorem c1_window_resume_counterexample :
    (mainTrace [42]).findIdx (fun a => a == TraceAction.cont) = 2 ∧
    (mainTrace [42]).findIdx (fun a => a == TraceAction.attachProbe) = 6 ∧
    (mainTrace [42]).findIdx (fun a => a == TraceAction.setTarget 42) = 7 ∧
    2 < 6 ∧ 2 < 7 := by
  decide

/-- C1 amended: in every run the first resume sits at position 2 of the
action trace, before the probe attachment at position 6 and before every
write into the probe filter, which all lie strictly between the attachment
and the next resume at position 7 plus the number of targets; every resolved
target is written in that span, and no other resume occurs after the first
one until that second and last resume, so only the second resume is issued
after probe targets are set. -/
theorem c1_first_resume_precedes_targets (pids : List Nat) :
    (mainTrace pids)[2]? = some TraceAction.cont ∧
    (∀ i, i < 2 → (mainTrace pids)[i]? ≠ some TraceAction.cont) ∧
    (mainTrace pids)[6]? = some TraceAction.attachProbe ∧
    (∀ i p, (mainTrace pids)[i]? = some (TraceAction.setTarget p) →
      6 < i ∧ i < 7 + pids.length) ∧
    (∀ p ∈ pids, ∃ i, 6 < i ∧ i < 7 + pids.length ∧
      (mainTrace pids)[i]? = some (TraceAction.setTarget p)) ∧
    (mainTrace pids)[7 + pids.length]? = some TraceAction.cont ∧
    (∀ i, 2 < i → i < 7 + pids.length →
      (mainTrace pids)[i]? ≠ some TraceAction.cont) := by
  refine ⟨?_, ?_, ?_, ?_, ?_, ?_, ?_⟩
  · rw [mainTrace_getElem_lt pids 2 (by omega)]
    rfl
  · intro i hi hip
    rw [mainTrace_getElem_lt pids i (by omega)] at hip
    interval_cases i <;> simp [tracePrefix] at hip
  · rw [mainTrace_getElem_lt pids 6 (by omega)]
    rfl
  · intro i p hip
    by_cases h1 : i < 7
    · rw [mainTrace_getElem_lt pids i h1] at hip
      interval_cases i <;> simp [tracePrefix] at hip
    · push_neg at h1
      by_cases h2 : i < 7 + pids.length
      · exact ⟨by omega, h2⟩
      · push_neg at h2
        rw [mainTrace_getElem_high pids i h2] at hip
        rcases Nat.lt_or_ge (i - (7 + pids.length)) 5 with hj | hj
        · have h5 : i - (7 + pids.length) ≤ 4 := by omega
          interval_cases hi : (i - (7 + pids.length)) <;>
            simp [traceSuffix] at hip
        · rw [List.getElem?_eq_none (by simp [traceSuffix]; omega)] at hip
          simp at hip
  · intro p hp
    obtain ⟨n, hn, hpn⟩ := List.getElem_of_mem hp
    refine ⟨7 + n, by omega, by omega, ?_⟩
    rw [mainTrace_getElem_mid pids (7 + n) (by omega) (by omega)]
    have : 7 + n - 7 = n := by omega
    rw [this, List.getElem?_eq_getElem hn, hpn]
    rfl
  · rw [mainTrace_getElem_high pids (7 + pids.length) (Nat.le_refl _)]
    simp [traceSuffix]
  · intro i h2 hlt hip
    by_cases h1 : i < 7
    · rw [mainTrace_getElem_lt pids i h1] at hip
      interval_cases i <;> simp [tracePrefix] at hip
    · push_neg at h1
      rw [mainTrace_getElem_mid pids i h1 hlt] at hip
      cases pids[i - 7]? <;> simp at hip

theorem c1_first_resume_precedes_targets_witness :
    (6 < 7 ∧ 7 < 8) ∧ (mainTrace [42])[3]? ≠ some TraceAction.cont :=
  ⟨(c1_first_resume_precedes_targets [42]).2.2.2.1 7 42 rfl,
    (c1_first_resume_precedes_targets [42]).2.2.2.2.2.2 3 (by omega) (by omega)⟩

/-- C10: in every run, the pause sits at position 4 of the action trace and
the vCPU query immediately after it at position 5, the query occurs nowhere
else, and the next resume after the pause is the one at position 7 plus the
number of targets, so the query is issued strictly after the pause and before
the subsequent resume. -/
theorem c10_query_between_stop_and_resume (pids : List Nat) :
    (mainTrace pids)[4]? = some TraceAction.stop ∧
    (mainTrace pids)[5]? = some TraceAction.queryCpus ∧
    (∀ i, (mainTrace pids)[i]? = some TraceAction.queryCpus → i = 5) ∧
    (∀ i, 4 < i → i < 7 + pids.length →
      (mainTrace pids)[i]? ≠ some TraceAction.cont) ∧
    (mainTrace pids)[7 + pids.length]? = some TraceAction.cont := by
  refine ⟨?_, ?_, ?_, ?_, ?_⟩
  · rw [mainTrace_getElem_lt pids 4 (by omega)]
    rfl
  · rw [mainTrace_getElem_lt pids 5 (by omega)]
    rfl
  · intro i hip
    by_cases h1 : i < 7
    · rw [mainTrace_getElem_lt pids i h1] at hip
      interval_cases i <;> simp [tracePrefix] at hip
      rfl
    · push_neg at h1
      by_cases h2 : i < 7 + pids.length
      · rw [mainTrace_getElem_mid pids i h1 h2] at hip
        cases pids[i - 7]? <;> simp at hip
      · push_neg at h2
        rw [mainTrace_getElem_high pids i h2] at hip
        rcases Nat.lt_or_ge (i - (7 + pids.length)) 5 with hj | hj
        · have h5 : i - (7 + pids.length) ≤ 4 := by omega
          interval_cases hi : (i - (7 + pids.length)) <;>
            simp [traceSuffix] at hip
        · rw [List.getElem?_eq_none (by simp [traceSuffix]; omega)] at hip
          simp at hip
  · intro i h4 hlt hip
    by_cases h1 : i < 7
    · rw [mainTrace_getElem_lt pids i h1] at hip
      interval_cases i <;> simp [tracePrefix] at hip
    · push_neg at h1
      rw [mainTrace_getElem_mid pids i h1 hlt] at hip
      cases pids[i - 7]? <;> simp at hip
  · rw [mainTrace_getElem_high pids (7 + pids.length) (Nat.le_refl _)]
    simp [traceSuffix]

theorem c10_query_between_stop_and_resume_witness :
    (mainTrace [])[5]? ≠ some TraceAction.cont ∧ (5 : Nat) = 5 :=
  ⟨(c10_query_between_stop_and_resume []).2.2.2.1 5 (by omega) (by omega),
    (c10_query_between_stop_and_resume []).2.2.1 5 rfl⟩

/-- Result of the module entry: either an immediate process exit with a status
code, or running the tracer body on the given argument string. -/
inductive EntryResult where
  | exitCode (n : Nat)
  | runMain (arg : String)
  deriving DecidableEq, Repr

/-- The module entry of the tracer: when the argument vector does not have
exactly two elements the process exits with status 1, otherwise the tracer
body runs on the second element, with no numeric validation of it. -/
def moduleEntry (argv : List String) : EntryResult :=
  if argv.length ≠ 2 then .exitCode 1 else .runMain (argv.getD 1 "")

/-- The specification calls the single positional argument numeric; an
argument is well-formed exactly when it is a nonempty digit string. -/
def numericArg (s : String) : Bool :=
  !s.isEmpty && s.data.all Char.isDigit

/-- C7 counterexample: on the malformed (non-numeric) argument xyz the entry
does not exit; it proceeds into the tracer body, refuting the claim that a
malformed argument causes a non-zero exit with no further action. -/
theorem c7_malformed_arg_counterexample :
    numericArg "xyz" = false ∧
    moduleEntry ["prog", "xyz"] ≠ EntryResult.exitCode 1 ∧
    moduleEntry ["prog", "xyz"] = EntryResult.runMain "xyz" := by
  refine ⟨by decide, ?_, rfl⟩
  intro h
  simp [moduleEntry] at h

/-- C7 amended: the entry exits with status 1 exactly when the argument count
is wrong; a malformed argument value is not rejected at entry. -/
theorem c7_exit_iff_wrong_arity (argv : List String) :
    moduleEntry argv = EntryResult.exitCode 1 ↔ argv.length ≠ 2 := by
  unfold moduleEntry
  split
  · simpa
  · rename_i h
    simp only [iff_false_intro h]
    simp

/-- The per-thread total of the analysis script: the scheds entry at the fixed
string key 0; `none` models the KeyError raised when that key is absent. -/
def total_scheds (scheds : List (String × Nat)) : Option Nat :=
  dictLookup "0" scheds

/-- The per-cpu share printed by the detailed analysis: count over total,
times 100, when the total is positive, and 0 otherwise. -/
def percentage (count total : Nat) : ℚ :=
  if total > 0 then ((count : ℚ) / (total : ℚ)) * 100 else 0

/-- C8: the zero-total guard of the percentage computation does yield 0, but
deriving the total of a report with no recorded events fails: on an empty
scheds map the fixed-key read has no value, the modelled KeyError. -/
theorem c8_total_fails_on_empty_scheds :
    total_scheds [] = none ∧
    total_scheds [("2", 7000)] = none ∧
    (∀ count : Nat, percentage count 0 = 0) := by
  refine ⟨rfl, rfl, ?_⟩
  intro count
  simp [percentage]
